import Mathlib

/-!
Verification of the OpenTools client core (OpenAPI `x-llm` extension,
tool generation, approval mediation, fetch guard, rate limiting) and of
the repository's upgrade script, as a shallow embedding in Lean 4.

Definitions either transcribe code present in the repository (the
`toolsFromOpenAPI` tool-generation snippet, `scripts/upgrade.ts`) or, where
the client core is designed but not implemented in the sources, are
modelled from the specification; the latter are marked
`Modelled from the spec:` in their doc comments.
-/

namespace OpenTools

/-- The two approval levels of the `x-llm` extension: `"auto"` and `"per-call"`. -/
inductive Approval where
  | auto
  | perCall
deriving DecidableEq, Repr

/-- Numeric strictness of an approval level: `auto` is 0, `per-call` is 1. -/
def Approval.toNat : Approval → Nat
  | .auto => 0
  | .perCall => 1

/-- Rate-limit configuration of the operation-level `x-llm` block:
`rateLimit: { max, window }`. -/
structure RateLimit where
  max : Nat
  window : String
deriving DecidableEq, Repr

/-- Operation-level `x-llm` block:
`{ enabled, approval?, blanketApprovalAllowed?, destructive?, rateLimit?, hint?, costIndicator? }`.
Optional fields are `Option`s; `enabled` is an `Option Bool` so that a block
lacking the flag is distinguishable from `enabled: false`. -/
structure XLlmOp where
  enabled : Option Bool
  approval : Option Approval
  blanketApprovalAllowed : Option Bool
  destructive : Option Bool
  rateLimit : Option RateLimit
  hint : Option String
  costIndicator : Option String
deriving DecidableEq, Repr

/-- Document-root `x-llm` block: `{ version, name, description, defaultApproval }`. -/
structure RootMetadata where
  version : String
  name : String
  description : String
  defaultApproval : Approval
deriving DecidableEq, Repr

/-- One path/method entry of the OpenAPI document, with its `operationId`,
`summary`, and optional operation-level `x-llm` extension block. -/
structure Operation where
  operationId : String
  method : String
  path : String
  summary : String
  xLlm : Option XLlmOp
deriving DecidableEq, Repr

/-- The OpenAPI document as far as the client core reads it: an optional
root `x-llm` block and the path/method entries in declaration order. -/
structure OpenAPIDocument where
  rootXLlm : Option RootMetadata
  operations : List Operation
deriving DecidableEq, Repr

/-- An eligible operation after parsing: operation identity plus the
effective `x-llm` metadata, defaults applied. -/
structure OperationDescriptor where
  operationId : String
  method : String
  path : String
  summary : String
  approval : Approval
  blanketApprovalAllowed : Bool
  destructive : Bool
  rateLimit : Option RateLimit
  hint : Option String
deriving DecidableEq, Repr

/-- Result of parsing: root metadata plus the eligible operations in
declaration order. -/
structure ParsedSpec where
  root : RootMetadata
  operations : List OperationDescriptor
deriving DecidableEq, Repr

/-- Discovery/parsing failure kinds. -/
inductive ParseError where
  | noLlmExtension
  | malformedDocument
  | unsupportedSpecVersion
deriving DecidableEq, Repr

/-- Modelled from the spec: the eligibility filter of the Spec Parser /
`getOperationsWithXLlm` (the helper the `toolsFromOpenAPI` snippet calls but
the sources do not define) — "an operation is eligible only if its own
extension block sets `enabled: true`". -/
def eligible (op : Operation) : Bool :=
  match op.xLlm with
  | some x => x.enabled == some true
  | none => false

/-- Modelled from the spec: building an `OperationDescriptor` from an eligible
operation — "`approval` defaults to root `defaultApproval`;
`blanketApprovalAllowed` defaults to `false`; `destructive` defaults to
`false`". -/
def descriptorOf (root : RootMetadata) (op : Operation) : OperationDescriptor :=
  let x := op.xLlm.getD ⟨none, none, none, none, none, none, none⟩
  { operationId := op.operationId
    method := op.method
    path := op.path
    summary := op.summary
    approval := x.approval.getD root.defaultApproval
    blanketApprovalAllowed := x.blanketApprovalAllowed.getD false
    destructive := x.destructive.getD false
    rateLimit := x.rateLimit
    hint := x.hint }

/-- Modelled from the spec: `parseSpec` of the Spec Parser (not implemented in
the sources) — "if no root extension block is present, fails with
`NoLlmExtension` ... otherwise walks path/method entries; an operation is
eligible only if its own extension block sets `enabled: true`". -/
def parseSpec (doc : OpenAPIDocument) : Except ParseError ParsedSpec :=
  match doc.rootXLlm with
  | none => .error .noLlmExtension
  | some root => .ok ⟨root, (doc.operations.filter eligible).map (descriptorOf root)⟩

/-- Modelled from the spec: the effective approval level of a call —
"`per-call` wins over `auto` from either side; user preference may only raise
strictness". -/
def effectiveApproval (site : Approval) (pref : Approval) : Approval :=
  match site, pref with
  | .perCall, _ => .perCall
  | _, .perCall => .perCall
  | .auto, .auto => .auto

/-- A consent decision, one of `approve-once`, `approve-always`, `deny-once`,
`deny-always`. -/
inductive Decision where
  | approveOnce
  | approveAlways
  | denyOnce
  | denyAlways
deriving DecidableEq, Repr

/-- Whether a decision approves the call (the boolean `approved` the
`toolsFromOpenAPI` snippet tests). -/
def Decision.isApprove : Decision → Bool
  | .approveOnce => true
  | .approveAlways => true
  | .denyOnce => false
  | .denyAlways => false

/-- Invocation failure kinds (the error channel of `invoke`). -/
inductive InvokeError where
  | invalidParams
  | rateLimited
  | authExpired
  | networkError
deriving DecidableEq, Repr

/-- A non-error invocation result: either `{ denied: true }` or a payload. -/
inductive InvokeResult where
  | denied
  | result (payload : String)
deriving DecidableEq, Repr

/-- The `execute` closure of the `toolsFromOpenAPI` snippet: if the operation's approval
is `per-call`, request approval; when not approved, return `{ denied: true }`
through the success channel; otherwise call the endpoint. The consent
decision and the endpoint's outcome are parameters. -/
def execute (op : OperationDescriptor) (decision : Decision)
    (endpoint : Except InvokeError String) : Except InvokeError InvokeResult :=
  if op.approval = .perCall then
    if decision.isApprove then endpoint.map .result
    else .ok .denied
  else endpoint.map .result

/-- A standing `*-always` decision recorded for one operation. -/
inductive Standing where
  | alwaysAllow
  | alwaysDeny
deriving DecidableEq, Repr

/-- Per-connection standing decisions: an association list from
`operationId` to the standing decision. -/
abbrev StandingDecisions := List (String × Standing)

/-- Look up the standing decision for an operation id. -/
def lookupStanding (sd : StandingDecisions) (id : String) : Option Standing :=
  (sd.find? (fun e => e.1 == id)).map (·.2)

/-- Outcome of one approval mediation. -/
inductive ApprovalOutcome where
  | approved
  | denied
deriving DecidableEq, Repr

/-- Result of `requestApproval`: the outcome, whether the external consent
callback was triggered, and the (possibly updated) standing decisions. -/
structure MediatorResult where
  outcome : ApprovalOutcome
  prompted : Bool
  standing : StandingDecisions
deriving DecidableEq, Repr

/-- Modelled from the spec: `requestApproval` of the Approval Mediator (not
implemented in the sources) — a standing `always-allow`/`always-deny` entry
for `op.operationId` resolves immediately with no prompt; otherwise the
consent callback supplies a decision, which is persisted into
`standingDecisions` only if its scope is `*-always` and
`blanketApprovalAllowed` is true for the operation. -/
def requestApproval (op : OperationDescriptor) (sd : StandingDecisions)
    (consent : Decision) : MediatorResult :=
  match lookupStanding sd op.operationId with
  | some .alwaysAllow => ⟨.approved, false, sd⟩
  | some .alwaysDeny => ⟨.denied, false, sd⟩
  | none =>
    let outcome : ApprovalOutcome :=
      if consent.isApprove then .approved else .denied
    let sd' : StandingDecisions :=
      if op.blanketApprovalAllowed then
        match consent with
        | .approveAlways => (op.operationId, Standing.alwaysAllow) :: sd
        | .denyAlways => (op.operationId, Standing.alwaysDeny) :: sd
        | _ => sd
      else sd
    ⟨outcome, true, sd'⟩

/-- Classification of the address a host resolves to. -/
inductive AddrClass where
  | loopback
  | linkLocal
  | privateRange
  | publicAddr
deriving DecidableEq, Repr

/-- The SSRF policy of the Fetch Guard: host resolution plus an explicit
allow-list (e.g. local development mode). -/
structure SsrfPolicy where
  resolve : String → AddrClass
  allowlist : List String

/-- A URL is blocked when it resolves to a loopback, link-local, or
private-range address and is not allow-listed. -/
def SsrfPolicy.blocked (p : SsrfPolicy) (url : String) : Bool :=
  !(p.resolve url == .publicAddr) && !(p.allowlist.contains url)

/-- Transport failure kinds of the Fetch Guard. -/
inductive FetchError where
  | ssrfBlocked
  | timeout
  | networkError
  | tooManyRedirects
deriving DecidableEq, Repr

/-- What the network answers at a URL: a redirect or a final body. -/
inductive NetResponse where
  | redirect (location : String)
  | ok (body : String)
deriving DecidableEq, Repr

/-- Outcome of a guarded fetch: the result, and the URLs to which a request
was actually delivered. -/
structure FetchOutcome where
  result : Except FetchError String
  delivered : List String
deriving Repr

/-- Modelled from the spec: `fetchSafe` of the Fetch Guard (not implemented
in the sources) — before connecting, the target is validated against the
SSRF policy; every redirect hop is independently re-validated against the
same policy; exceeding the redirect budget fails with `TooManyRedirects`.
`fuel` is the remaining redirect budget. -/
def fetchSafe (p : SsrfPolicy) (net : String → NetResponse) :
    Nat → String → FetchOutcome
  | fuel, url =>
    if p.blocked url then ⟨.error .ssrfBlocked, []⟩
    else
      match net url with
      | .ok body => ⟨.ok body, [url]⟩
      | .redirect loc =>
        match fuel with
        | 0 => ⟨.error .tooManyRedirects, [url]⟩
        | fuel + 1 =>
          let rest := fetchSafe p net fuel loc
          ⟨rest.result, url :: rest.delivered⟩

/-- The chain of hops the network prescribes from a URL, truncated at the
redirect budget: the URLs `fetchSafe` would examine in order. -/
def hops (net : String → NetResponse) : Nat → String → List String
  | 0, url => [url]
  | fuel + 1, url =>
    url ::
      match net url with
      | .redirect loc => hops net fuel loc
      | .ok _ => []

/-- Value of a string of decimal digits. -/
def digitsToNat (cs : List Char) : Nat :=
  cs.foldl (fun acc c => acc * 10 + (c.toNat - 48)) 0

/-- Modelled from the spec: duration of a `rateLimit.window` string such as
`"30s"`, `"1m"`, `"2h"`, in milliseconds. -/
def parseWindowMs (w : String) : Option Nat :=
  let cs := w.toList
  let digits := cs.takeWhile Char.isDigit
  let unit := cs.dropWhile Char.isDigit
  if digits.isEmpty then none
  else
    match unit with
    | ['m', 's'] => some (digitsToNat digits)
    | ['s'] => some (digitsToNat digits * 1000)
    | ['m'] => some (digitsToNat digits * 60000)
    | ['h'] => some (digitsToNat digits * 3600000)
    | _ => none

/-- Per-operation token-bucket state: remaining tokens and the start of the
current window (a millisecond timestamp). -/
structure BucketState where
  tokens : Nat
  windowStart : Nat
deriving DecidableEq, Repr

/-- A fresh token bucket, full at the current time. -/
def freshBucket (cfg : RateLimit) (now : Nat) : BucketState :=
  ⟨cfg.max, now⟩

/-- Modelled from the spec: the per-operation rate-limit check (not
implemented in the sources) — a token bucket sized and windowed from
`rateLimit`: refill when the window has elapsed, then consume one token if
any remains, else refuse. -/
def checkRateLimit (cfg : RateLimit) (windowMs : Nat) (st : BucketState)
    (now : Nat) : Bool × BucketState :=
  let st := if st.windowStart + windowMs ≤ now then freshBucket cfg now else st
  if st.tokens = 0 then (false, st)
  else (true, ⟨st.tokens - 1, st.windowStart⟩)

/-- One rate-limited call at time `now`: if the bucket is exhausted, fail
with `RateLimited` and make no network call; otherwise call the endpoint.
Returns the result, whether a network call was made, and the new bucket. -/
def rateLimitedCall (cfg : RateLimit) (windowMs : Nat) (st : BucketState)
    (now : Nat) (endpoint : String) :
    Except InvokeError String × Bool × BucketState :=
  match checkRateLimit cfg windowMs st now with
  | (false, st') => (.error .rateLimited, false, st')
  | (true, st') => (.ok endpoint, true, st')

/-- A sequence of rate-limited calls at the given times, threading the
bucket state; yields for each call its result and whether the network was
reached. -/
def runCalls (cfg : RateLimit) (windowMs : Nat) (endpoint : String) :
    BucketState → List Nat → List (Except InvokeError String × Bool)
  | _, [] => []
  | st, t :: ts =>
    let (r, called, st') := rateLimitedCall cfg windowMs st t endpoint
    (r, called) :: runCalls cfg windowMs endpoint st' ts

/-- A generated tool as far as naming and description go. -/
structure Tool where
  name : String
  description : String
deriving DecidableEq, Repr

/-- The tool name of an operation, from the `toolsFromOpenAPI` snippet:
the entries are keyed by `op.operationId`. -/
def toolName (op : Operation) : String :=
  op.operationId

/-- The tool description of an operation, from the `toolsFromOpenAPI`
snippet: the summary, with the `x-llm` hint appended on a new line when
present. -/
def toolDescription (op : Operation) : String :=
  op.summary ++
    match op.xLlm.bind (·.hint) with
    | some h => "\n" ++ h
    | none => ""

/-- The `toolsFromOpenAPI` function from the sources: one named tool per
eligible operation, keyed by `op.operationId`. -/
def toolsFromOpenAPI (doc : OpenAPIDocument) : List (String × Tool) :=
  (doc.operations.filter eligible).map
    (fun op => (toolName op, ⟨toolName op, toolDescription op⟩))

end OpenTools

namespace Upgrade

/-- One step of `scripts/upgrade.ts`: a display name and a `critical` flag. -/
structure Step where
  name : String
  critical : Bool
deriving DecidableEq, Repr

/-- The five steps of `scripts/upgrade.ts`, in order. -/
def steps : List Step :=
  [⟨"Next.js Upgrade", true⟩,
   ⟨"shadcn/ui Components", true⟩,
   ⟨"Dependency Update", true⟩,
   ⟨"Ultracite Fix", false⟩,
   ⟨"Type Check", false⟩]

/-- Runs the loop of `scripts/upgrade.ts` over indexed steps: a nonzero exit
of a critical step aborts with process exit code 1; a nonzero exit of a
non-critical step sets `failed` and continues; at the end the process exits
1 when `failed` and 0 otherwise. `exits i` is the exit code of step `i`'s
command. Returns the indices of the steps whose commands ran, and the
script's exit code. -/
def runStepsFrom (exits : Nat → Nat) :
    List (Nat × Step) → Bool → List Nat × Nat
  | [], failed => ([], if failed then 1 else 0)
  | (i, s) :: rest, failed =>
    if exits i = 0 then
      let (ex, code) := runStepsFrom exits rest failed
      (i :: ex, code)
    else if s.critical then ([i], 1)
    else
      let (ex, code) := runStepsFrom exits rest true
      (i :: ex, code)

/-- The whole upgrade script run: executed step indices and exit code. -/
def runUpgrade (exits : Nat → Nat) : List Nat × Nat :=
  runStepsFrom exits steps.enum false

end Upgrade

namespace OpenTools

/-- A demonstration OpenAPI document with an eligible read operation, an
eligible write operation, an operation whose block lacks the `enabled`
flag, and an operation with no `x-llm` block at all. -/
def demoDoc : OpenAPIDocument :=
  { rootXLlm := some ⟨"0.1", "RecipeApp", "Save and discover recipes", .perCall⟩
    operations :=
      [⟨"searchRecipes", "get", "/recipes/search", "Search recipes",
         some ⟨some true, some .auto, none, none, some ⟨30, "1m"⟩,
               some "Use when the user asks to find recipes", none⟩⟩,
       ⟨"addFavorite", "post", "/favorites", "Save recipe to favorites",
         some ⟨some true, some .perCall, some true, none, none, none, none⟩⟩,
       ⟨"legacyOp", "get", "/legacy", "Legacy endpoint",
         some ⟨none, none, none, none, none, none, none⟩⟩,
       ⟨"plainOp", "get", "/plain", "Plain endpoint", none⟩] }

/-- The parse of `demoDoc`: only the two enabled operations survive. -/
def demoParsed : ParsedSpec :=
  { root := ⟨"0.1", "RecipeApp", "Save and discover recipes", .perCall⟩
    operations :=
      [⟨"searchRecipes", "get", "/recipes/search", "Search recipes",
         .auto, false, false, some ⟨30, "1m"⟩,
         some "Use when the user asks to find recipes"⟩,
       ⟨"addFavorite", "post", "/favorites", "Save recipe to favorites",
         .perCall, true, false, none, none⟩] }

theorem eligible_iff (op : Operation) :
    eligible op = true ↔ ∃ x, op.xLlm = some x ∧ x.enabled = some true := by
  cases h : op.xLlm with
  | none => simp [eligible, h]
  | some x => simp [eligible, h]

/-- C1: an operation appears in `ParsedSpec.operations` (and yields a
generated tool) iff its own `x-llm` block sets `enabled: true`; an operation
whose block lacks the flag, or that has no block, never appears; a document
without a root `x-llm` block is non-participating. -/
theorem operations_iff_enabled (doc : OpenAPIDocument) :
    (doc.rootXLlm = none → parseSpec doc = .error .noLlmExtension) ∧
    (∀ spec, parseSpec doc = .ok spec →
      (∀ d ∈ spec.operations, ∃ op ∈ doc.operations,
          (∃ x, op.xLlm = some x ∧ x.enabled = some true) ∧
          d.operationId = op.operationId) ∧
      (∀ op ∈ doc.operations, ∀ x, op.xLlm = some x → x.enabled = some true →
          ∃ d ∈ spec.operations, d.operationId = op.operationId) ∧
      ((doc.operations.map Operation.operationId).Nodup →
        ∀ op ∈ doc.operations, (∀ x, op.xLlm = some x → x.enabled ≠ some true) →
          ∀ d ∈ spec.operations, d.operationId ≠ op.operationId)) ∧
    (∀ t ∈ toolsFromOpenAPI doc, ∃ op ∈ doc.operations,
        (∃ x, op.xLlm = some x ∧ x.enabled = some true) ∧
        t.1 = op.operationId) ∧
    (∀ op ∈ doc.operations, ∀ x, op.xLlm = some x → x.enabled = some true →
        ∃ t ∈ toolsFromOpenAPI doc, t.1 = op.operationId) := by
  refine ⟨fun h => by simp [parseSpec, h], ?_, ?_, ?_⟩
  · intro spec hspec
    cases hroot : doc.rootXLlm with
    | none => simp [parseSpec, hroot] at hspec
    | some root =>
      simp only [parseSpec, hroot, Except.ok.injEq] at hspec
      subst hspec
      refine ⟨?_, ?_, ?_⟩
      · intro d hd
        obtain ⟨op, hopmem, rfl⟩ := List.mem_map.mp hd
        obtain ⟨hop, helig⟩ := List.mem_filter.mp hopmem
        exact ⟨op, hop, (eligible_iff op).mp helig, rfl⟩
      · intro op hop x hx henabled
        have helig : eligible op = true := (eligible_iff op).mpr ⟨x, hx, henabled⟩
        exact ⟨descriptorOf root op,
          List.mem_map_of_mem _ (List.mem_filter.mpr ⟨hop, helig⟩), rfl⟩
      · intro hnodup op hop hnot d hd heq
        obtain ⟨op', hop'mem, rfl⟩ := List.mem_map.mp hd
        obtain ⟨hop', helig'⟩ := List.mem_filter.mp hop'mem
        have : op' = op :=
          List.inj_on_of_nodup_map hnodup hop' hop heq
        subst this
        obtain ⟨x, hx, henabled⟩ := (eligible_iff op').mp helig'
        exact hnot x hx henabled
  · intro t ht
    obtain ⟨op, hopmem, rfl⟩ := List.mem_map.mp ht
    obtain ⟨hop, helig⟩ := List.mem_filter.mp hopmem
    exact ⟨op, hop, (eligible_iff op).mp helig, rfl⟩
  · intro op hop x hx henabled
    have helig : eligible op = true := (eligible_iff op).mpr ⟨x, hx, henabled⟩
    exact ⟨(toolName op, ⟨toolName op, toolDescription op⟩),
      List.mem_map_of_mem _ (List.mem_filter.mpr ⟨hop, helig⟩), rfl⟩

/-- Witness for C1: on `demoDoc`, parsing succeeds with exactly the enabled
operations, and each appearing descriptor traces back to an
`enabled: true` operation. -/
theorem operations_iff_enabled_witness :
    parseSpec demoDoc = .ok demoParsed ∧
    (∀ d ∈ demoParsed.operations, ∃ op ∈ demoDoc.operations,
        (∃ x, op.xLlm = some x ∧ x.enabled = some true) ∧
        d.operationId = op.operationId) :=
  ⟨rfl, ((operations_iff_enabled demoDoc).2.1 demoParsed rfl).1⟩

/-- C2: the effective approval of a call is the maximum in strictness of the
site-declared approval and the user preference; it is never below the site
minimum, and a user preference of `auto` cannot downgrade a site-declared
`per-call`. -/
theorem effective_approval_is_max (site pref : Approval) :
    (effectiveApproval site pref).toNat = Nat.max site.toNat pref.toNat ∧
    site.toNat ≤ (effectiveApproval site pref).toNat ∧
    effectiveApproval .perCall .auto = .perCall := by
  cases site <;> cases pref <;> simp [effectiveApproval, Approval.toNat]

/-- The `deleteTask` operation of the spec's scenario: `per-call`,
destructive, blanket approval forbidden. -/
def deleteTaskOp : OperationDescriptor :=
  ⟨"deleteTask", "delete", "/tasks/{id}", "Delete a task",
   .perCall, false, true, none, none⟩

/-- C3: a consent decision of `deny-once` or `deny-always` makes `invoke`
return the non-error value `{ denied: true }` through the success channel;
a denial never surfaces through the error channel. -/
theorem denial_is_success_channel (op : OperationDescriptor) (d : Decision)
    (endpoint : Except InvokeError String)
    (happroval : op.approval = .perCall)
    (hdeny : d = .denyOnce ∨ d = .denyAlways) :
    execute op d endpoint = .ok .denied ∧
    ∀ e, execute op d endpoint ≠ .error e := by
  rcases hdeny with h | h <;> subst h <;>
    simp [execute, happroval, Decision.isApprove]

/-- Witness for C3: denying a `per-call` `deleteTask` call yields
`{ denied: true }` as a success, not an error. -/
theorem denial_is_success_channel_witness :
    deleteTaskOp.approval = .perCall ∧
    (execute deleteTaskOp .denyOnce (.ok "response") = .ok .denied ∧
     ∀ e, execute deleteTaskOp .denyOnce (.ok "response") ≠ .error e) :=
  ⟨rfl, denial_is_success_channel deleteTaskOp .denyOnce (.ok "response")
          rfl (Or.inl rfl)⟩

theorem lookupStanding_cons (e : String × Standing) (sd : StandingDecisions)
    (id : String) :
    lookupStanding (e :: sd) id =
      if e.1 == id then some e.2 else lookupStanding sd id := by
  by_cases h : e.1 == id <;> simp [lookupStanding, List.find?, h]

/-- A single mediation step never removes or rewrites an existing standing
entry. -/
theorem requestApproval_preserves_standing (op : OperationDescriptor)
    (sd : StandingDecisions) (consent : Decision) (id : String) (s : Standing)
    (h : lookupStanding sd id = some s) :
    lookupStanding (requestApproval op sd consent).standing id = some s := by
  unfold requestApproval
  cases hop : lookupStanding sd op.operationId with
  | some st => cases st <;> simpa using h
  | none =>
    simp only
    by_cases hb : op.blanketApprovalAllowed
    · have hne : (op.operationId == id) = false := by
        rw [beq_eq_false_iff_ne]
        intro heq
        rw [heq] at hop
        simp [hop] at h
      cases consent <;> simp [hb, lookupStanding_cons, hne, h]
    · simp [hb, h]

/-- A sequence of later mediation steps, threading the standing decisions. -/
def mediate : StandingDecisions → List (OperationDescriptor × Decision) →
    StandingDecisions
  | sd, [] => sd
  | sd, (op, c) :: rest => mediate (requestApproval op sd c).standing rest

theorem mediate_preserves_standing (reqs : List (OperationDescriptor × Decision))
    (sd : StandingDecisions) (id : String) (s : Standing)
    (h : lookupStanding sd id = some s) :
    lookupStanding (mediate sd reqs) id = some s := by
  induction reqs generalizing sd with
  | nil => simpa [mediate] using h
  | cons req rest ih =>
    exact ih _ (requestApproval_preserves_standing req.1 sd req.2 id s h)

/-- C4: once `standingDecisions` holds an `always-allow` entry for an
operation, no later `invoke` of that operation on the connection triggers
the consent callback — after any sequence of further mediation steps,
`requestApproval` resolves approved with no prompt and leaves the standing
decisions unchanged. -/
theorem standing_allow_never_prompts (op : OperationDescriptor)
    (sd : StandingDecisions)
    (h : lookupStanding sd op.operationId = some .alwaysAllow)
    (reqs : List (OperationDescriptor × Decision)) (consent : Decision) :
    (requestApproval op (mediate sd reqs) consent).prompted = false ∧
    (requestApproval op (mediate sd reqs) consent).outcome = .approved ∧
    (requestApproval op (mediate sd reqs) consent).standing = mediate sd reqs := by
  have hlater : lookupStanding (mediate sd reqs) op.operationId =
      some .alwaysAllow := mediate_preserves_standing reqs sd _ _ h
  simp [requestApproval, hlater]

/-- Witness for C4: with a standing `always-allow` for `searchRecipes`, a
later request after an unrelated mediation resolves without a prompt. -/
theorem standing_allow_never_prompts_witness :
    lookupStanding [("searchRecipes", Standing.alwaysAllow)] "searchRecipes" =
      some .alwaysAllow ∧
    ((requestApproval
        ⟨"searchRecipes", "get", "/recipes/search", "Search recipes",
         .perCall, true, false, none, none⟩
        (mediate [("searchRecipes", Standing.alwaysAllow)]
          [(deleteTaskOp, .denyOnce)])
        .approveOnce).prompted = false ∧
     (requestApproval
        ⟨"searchRecipes", "get", "/recipes/search", "Search recipes",
         .perCall, true, false, none, none⟩
        (mediate [("searchRecipes", Standing.alwaysAllow)]
          [(deleteTaskOp, .denyOnce)])
        .approveOnce).outcome = .approved ∧
     (requestApproval
        ⟨"searchRecipes", "get", "/recipes/search", "Search recipes",
         .perCall, true, false, none, none⟩
        (mediate [("searchRecipes", Standing.alwaysAllow)]
          [(deleteTaskOp, .denyOnce)])
        .approveOnce).standing =
       mediate [("searchRecipes", Standing.alwaysAllow)]
         [(deleteTaskOp, .denyOnce)]) :=
  ⟨by decide,
   standing_allow_never_prompts
     ⟨"searchRecipes", "get", "/recipes/search", "Search recipes",
      .perCall, true, false, none, none⟩
     [("searchRecipes", Standing.alwaysAllow)] (by decide)
     [(deleteTaskOp, .denyOnce)] .approveOnce⟩

/-- C5: every standing entry a mediation step writes comes from a `*-always`
decision on an operation whose `blanketApprovalAllowed` is true; with
blanket approval forbidden, the standing decisions are left untouched (in
particular, an `approve-always` decision adds no entry for the operation). -/
theorem standing_writes_gated (op : OperationDescriptor)
    (sd : StandingDecisions) (consent : Decision) :
    (∀ id s,
        lookupStanding (requestApproval op sd consent).standing id = some s →
        lookupStanding sd id = some s ∨
        (id = op.operationId ∧ op.blanketApprovalAllowed = true ∧
          ((consent = .approveAlways ∧ s = .alwaysAllow) ∨
           (consent = .denyAlways ∧ s = .alwaysDeny)))) ∧
    (op.blanketApprovalAllowed = false →
      (requestApproval op sd consent).standing = sd ∧
      (lookupStanding sd op.operationId = none →
        lookupStanding (requestApproval op sd consent).standing
          op.operationId = none)) := by
  constructor
  · intro id s hs
    unfold requestApproval at hs
    cases hop : lookupStanding sd op.operationId with
    | some st =>
      rw [hop] at hs
      cases st <;> simp at hs <;> exact Or.inl hs
    | none =>
      rw [hop] at hs
      simp only at hs
      by_cases hb : op.blanketApprovalAllowed
      · cases consent <;> simp only [hb, if_true] at hs
        · exact Or.inl hs
        · rw [lookupStanding_cons] at hs
          by_cases hid : (op.operationId == id) = true
          · rw [if_pos hid] at hs
            exact Or.inr ⟨(eq_of_beq hid).symm, hb, Or.inl ⟨rfl, by
              simpa using hs.symm⟩⟩
          · rw [if_neg hid] at hs
            exact Or.inl hs
        · exact Or.inl hs
        · rw [lookupStanding_cons] at hs
          by_cases hid : (op.operationId == id) = true
          · rw [if_pos hid] at hs
            exact Or.inr ⟨(eq_of_beq hid).symm, hb, Or.inr ⟨rfl, by
              simpa using hs.symm⟩⟩
          · rw [if_neg hid] at hs
            exact Or.inl hs
      · rw [if_neg hb] at hs
        exact Or.inl hs
  · intro hb
    have hst : (requestApproval op sd consent).standing = sd := by
      unfold requestApproval
      cases hop : lookupStanding sd op.operationId with
      | some st => cases st <;> rfl
      | none => simp [hb]
    exact ⟨hst, fun hnone => by rw [hst]; exact hnone⟩

/-- Witness for C5: an `approve-always` decision on `deleteTask` (blanket
approval forbidden) leaves empty standing decisions empty. -/
theorem standing_writes_gated_witness :
    deleteTaskOp.blanketApprovalAllowed = false ∧
    ((requestApproval deleteTaskOp [] .approveAlways).standing = [] ∧
     (lookupStanding [] deleteTaskOp.operationId = none →
       lookupStanding (requestApproval deleteTaskOp [] .approveAlways).standing
         deleteTaskOp.operationId = none)) :=
  ⟨rfl, (standing_writes_gated deleteTaskOp [] .approveAlways).2 rfl⟩

/-- C6: a guarded fetch never delivers a request to a blocked address, and
whenever any hop of the redirect chain it follows (the initial URL
included) is blocked by the SSRF policy, the fetch fails with
`SsrfBlocked` and the blocked address receives no request. -/
theorem fetch_guard_validates_every_hop (p : SsrfPolicy)
    (net : String → NetResponse) (fuel : Nat) (url : String) :
    (∀ u ∈ (fetchSafe p net fuel url).delivered, p.blocked u = false) ∧
    ((∃ u ∈ hops net fuel url, p.blocked u = true) →
      (fetchSafe p net fuel url).result = .error .ssrfBlocked ∧
      ∀ u, p.blocked u = true → u ∉ (fetchSafe p net fuel url).delivered) := by
  induction fuel generalizing url with
  | zero =>
    by_cases hb : p.blocked url
    · refine ⟨by simp [fetchSafe, hb], fun _ => ⟨by simp [fetchSafe, hb], ?_⟩⟩
      intro u hu
      simp [fetchSafe, hb]
    · cases hnet : net url with
      | ok body =>
        refine ⟨?_, ?_⟩
        · intro u hu
          have : u = url := by simpa [fetchSafe, hb, hnet] using hu
          subst this
          simpa using hb
        · rintro ⟨u, hu, hub⟩
          have : u = url := by simpa [hops] using hu
          subst this
          exact absurd hub (by simpa using hb)
      | redirect loc =>
        refine ⟨?_, ?_⟩
        · intro u hu
          have : u = url := by simpa [fetchSafe, hb, hnet] using hu
          subst this
          simpa using hb
        · rintro ⟨u, hu, hub⟩
          have : u = url := by simpa [hops] using hu
          subst this
          exact absurd hub (by simpa using hb)
  | succ fuel ih =>
    by_cases hb : p.blocked url
    · refine ⟨by simp [fetchSafe, hb], fun _ => ⟨by simp [fetchSafe, hb], ?_⟩⟩
      intro u hu
      simp [fetchSafe, hb]
    · cases hnet : net url with
      | ok body =>
        refine ⟨?_, ?_⟩
        · intro u hu
          have : u = url := by simpa [fetchSafe, hb, hnet] using hu
          subst this
          simpa using hb
        · rintro ⟨u, hu, hub⟩
          have : u = url := by simpa [hops, hnet] using hu
          subst this
          exact absurd hub (by simpa using hb)
      | redirect loc =>
        have hdel : (fetchSafe p net (fuel + 1) url).delivered =
            url :: (fetchSafe p net fuel loc).delivered := by
          rw [fetchSafe]
          simp [hb, hnet]
        have hres : (fetchSafe p net (fuel + 1) url).result =
            (fetchSafe p net fuel loc).result := by
          rw [fetchSafe]
          simp [hb, hnet]
        have hmem : ∀ u ∈ (fetchSafe p net (fuel + 1) url).delivered,
            p.blocked u = false := by
          intro u hu
          rw [hdel] at hu
          rcases List.mem_cons.mp hu with rfl | hu
          · simpa using hb
          · exact (ih loc).1 u hu
        refine ⟨hmem, ?_⟩
        rintro ⟨u, hu, hub⟩
        have hu' : u ∈ hops net fuel loc := by
          have := List.mem_cons.mp (by simpa [hops, hnet] using hu)
          rcases this with rfl | h
          · exact absurd hub (by simpa using hb)
          · exact h
        refine ⟨?_, ?_⟩
        · rw [hres]
          exact ((ih loc).2 ⟨u, hu', hub⟩).1
        · intro v hv hvmem
          exact absurd hub (by
            have := hmem u
            rcases List.mem_cons.mp (hdel ▸ hvmem) with h | h
            · exact absurd (hmem v hvmem) (by simp [hv])
            · exact absurd (hmem v hvmem) (by simp [hv]))

/-- A demonstration SSRF policy: one public API host, a link-local
metadata address, everything else private; empty allow-list. -/
def demoPolicy : SsrfPolicy :=
  ⟨fun u =>
    if u = "https://pub.example/api" then .publicAddr
    else if u = "http://169.254.169.254/meta" then .linkLocal
    else .privateRange,
   []⟩

/-- A demonstration network in which the public API redirects to the
link-local metadata address. -/
def demoNet : String → NetResponse :=
  fun u =>
    if u = "https://pub.example/api"
    then .redirect "http://169.254.169.254/meta"
    else .ok "secrets"

/-- Witness for C6: the public URL redirecting to the link-local address is
rejected with `SsrfBlocked`, and no blocked address is ever requested. -/
theorem fetch_guard_validates_every_hop_witness :
    (fetchSafe demoPolicy demoNet 5 "https://pub.example/api").result =
      .error .ssrfBlocked ∧
    ∀ u, demoPolicy.blocked u = true →
      u ∉ (fetchSafe demoPolicy demoNet 5 "https://pub.example/api").delivered :=
  (fetch_guard_validates_every_hop demoPolicy demoNet 5
    "https://pub.example/api").2 (by decide)

/-- C7: with `rateLimit {max: 3, window: "1m"}` and a fresh bucket, the
first three calls inside the window pass and reach the network, and the
fourth call before the window elapses fails with `RateLimited` without a
network call. -/
theorem rate_limit_three_per_minute (t0 t1 t2 t3 t4 : Nat) (endpoint : String)
    (h1 : t1 < t0 + 60000) (h2 : t2 < t0 + 60000)
    (h3 : t3 < t0 + 60000) (h4 : t4 < t0 + 60000) :
    parseWindowMs "1m" = some 60000 ∧
    runCalls ⟨3, "1m"⟩ 60000 endpoint (freshBucket ⟨3, "1m"⟩ t0)
        [t1, t2, t3, t4] =
      [(.ok endpoint, true), (.ok endpoint, true), (.ok endpoint, true),
       (.error .rateLimited, false)] := by
  have n1 : ¬ (t0 + 60000 ≤ t1) := by omega
  have n2 : ¬ (t0 + 60000 ≤ t2) := by omega
  have n3 : ¬ (t0 + 60000 ≤ t3) := by omega
  have n4 : ¬ (t0 + 60000 ≤ t4) := by omega
  refine ⟨by decide, ?_⟩
  simp [runCalls, rateLimitedCall, checkRateLimit, freshBucket, n1, n2, n3, n4]

/-- Witness for C7: a fresh bucket at time 0 with calls at 1, 2, 3, 4
milliseconds admits three calls and rejects the fourth. -/
theorem rate_limit_three_per_minute_witness :
    parseWindowMs "1m" = some 60000 ∧
    runCalls ⟨3, "1m"⟩ 60000 "payload" (freshBucket ⟨3, "1m"⟩ 0)
        [1, 2, 3, 4] =
      [(.ok "payload", true), (.ok "payload", true), (.ok "payload", true),
       (.error .rateLimited, false)] :=
  rate_limit_three_per_minute 0 1 2 3 4 "payload"
    (by decide) (by decide) (by decide) (by decide)

/-- A document whose root `x-llm` block declares the name `AppA`, exposing
one enabled operation `getThing`. -/
def docA : OpenAPIDocument :=
  { rootXLlm := some ⟨"0.1", "AppA", "First app", .auto⟩
    operations :=
      [⟨"getThing", "get", "/thing", "Get the thing",
         some ⟨some true, none, none, none, none, none, none⟩⟩] }

/-- A document whose root `x-llm` block declares the name `AppB`, exposing
an operation with the same `operationId` as `docA`. -/
def docB : OpenAPIDocument :=
  { rootXLlm := some ⟨"0.1", "AppB", "Second app", .auto⟩
    operations :=
      [⟨"getThing", "get", "/thing", "Get the thing",
         some ⟨some true, none, none, none, none, none, none⟩⟩] }

/-- Counterexample to C8: `docA` and `docB` declare different root names,
yet both generate a tool named `getThing` — tool names are not namespaced
by `root.name`, and two connections with different root names collide. -/
theorem tool_names_collide_across_roots :
    docA.rootXLlm.map RootMetadata.name = some "AppA" ∧
    docB.rootXLlm.map RootMetadata.name = some "AppB" ∧
    (toolsFromOpenAPI docA).map Prod.fst = ["getThing"] ∧
    (toolsFromOpenAPI docB).map Prod.fst = ["getThing"] := by
  refine ⟨rfl, rfl, ?_, ?_⟩ <;> decide

/-- C8 (amended): generated tool names are the bare `operationId` of an
enabled source operation; the document's `root.name` does not enter the
name at all (replacing the root metadata leaves the tool set unchanged), so
two connections sharing an `operationId` collide regardless of root names. -/
theorem tool_names_are_operation_ids (doc : OpenAPIDocument) :
    (∀ root', toolsFromOpenAPI { doc with rootXLlm := root' } =
      toolsFromOpenAPI doc) ∧
    (∀ t ∈ toolsFromOpenAPI doc, ∃ op ∈ doc.operations,
        (∃ x, op.xLlm = some x ∧ x.enabled = some true) ∧
        t.1 = op.operationId ∧ t.2.name = op.operationId) := by
  refine ⟨fun root' => rfl, ?_⟩
  intro t ht
  obtain ⟨op, hopmem, rfl⟩ := List.mem_map.mp ht
  obtain ⟨hop, helig⟩ := List.mem_filter.mp hopmem
  exact ⟨op, hop, (eligible_iff op).mp helig, rfl, rfl⟩

/-- Witness for the amended C8: the tool generated from `docA` is named by
the `operationId` of its enabled operation. -/
theorem tool_names_are_operation_ids_witness :
    ∃ op ∈ docA.operations,
      (∃ x, op.xLlm = some x ∧ x.enabled = some true) ∧
      ("getThing" : String) = op.operationId ∧
      (Tool.mk "getThing" "Get the thing").name = op.operationId :=
  (tool_names_are_operation_ids docA).2
    ("getThing", Tool.mk "getThing" "Get the thing") (by decide)

end OpenTools

namespace Upgrade

/-- Full behavioural characterization of the upgrade script: the first
failing critical step aborts with exit 1; otherwise all five steps run and
the exit code is 1 exactly when a non-critical step failed. -/
theorem runUpgrade_eq (exits : Nat → Nat) :
    runUpgrade exits =
      if exits 0 = 0 then
        if exits 1 = 0 then
          if exits 2 = 0 then
            ([0, 1, 2, 3, 4],
              if exits 3 = 0 then (if exits 4 = 0 then 0 else 1) else 1)
          else ([0, 1, 2], 1)
        else ([0, 1], 1)
      else ([0], 1) := by
  have henum : steps.enum =
      [(0, ⟨"Next.js Upgrade", true⟩), (1, ⟨"shadcn/ui Components", true⟩),
       (2, ⟨"Dependency Update", true⟩), (3, ⟨"Ultracite Fix", false⟩),
       (4, ⟨"Type Check", false⟩)] := rfl
  rw [runUpgrade, henum]
  by_cases e0 : exits 0 = 0 <;> by_cases e1 : exits 1 = 0 <;>
    by_cases e2 : exits 2 = 0 <;> by_cases e3 : exits 3 = 0 <;>
    by_cases e4 : exits 4 = 0 <;>
    simp [runStepsFrom, e0, e1, e2, e3, e4]

/-- C9: if a critical step's command runs and exits nonzero, the script
terminates with exit code 1 and no later step is executed. -/
theorem critical_failure_aborts (exits : Nat → Nat) (i : Nat)
    (hexec : i ∈ (runUpgrade exits).1)
    (hcrit : (steps.getD i ⟨"", false⟩).critical = true)
    (hfail : exits i ≠ 0) :
    (runUpgrade exits).2 = 1 ∧
    ∀ j, i < j → j ∉ (runUpgrade exits).1 := by
  rw [runUpgrade_eq] at hexec ⊢
  by_cases e0 : exits 0 = 0
  · by_cases e1 : exits 1 = 0
    · by_cases e2 : exits 2 = 0
      · rw [if_pos e0, if_pos e1, if_pos e2] at hexec ⊢
        simp at hexec
        rcases hexec with rfl | rfl | rfl | rfl | rfl
        · exact absurd e0 hfail
        · exact absurd e1 hfail
        · exact absurd e2 hfail
        · exact absurd hcrit (by decide)
        · exact absurd hcrit (by decide)
      · rw [if_pos e0, if_pos e1, if_neg e2] at hexec ⊢
        simp at hexec
        rcases hexec with rfl | rfl | rfl
        · exact absurd e0 hfail
        · exact absurd e1 hfail
        · refine ⟨rfl, fun j hj => ?_⟩
          simp
          omega
    · rw [if_pos e0, if_neg e1] at hexec ⊢
      simp at hexec
      rcases hexec with rfl | rfl
      · exact absurd e0 hfail
      · refine ⟨rfl, fun j hj => ?_⟩
        simp
        omega
  · rw [if_neg e0] at hexec ⊢
    simp at hexec
    subst hexec
    refine ⟨rfl, fun j hj => ?_⟩
    simp
    omega

/-- An exit-code assignment under which the critical second step
(`shadcn/ui Components`, index 1) fails. -/
def exitsCriticalFail : Nat → Nat :=
  fun i => if i = 1 then 2 else 0

/-- Witness for C9: when step 1 (critical) exits 2, the script exits 1 and
no step after index 1 runs. -/
theorem critical_failure_aborts_witness :
    (runUpgrade exitsCriticalFail).2 = 1 ∧
    ∀ j, 1 < j → j ∉ (runUpgrade exitsCriticalFail).1 :=
  critical_failure_aborts exitsCriticalFail 1 (by decide) (by decide) (by decide)

/-- C10: the upgrade script exits 0 iff all five step commands exit 0;
when only non-critical steps fail, every step still runs and the script
exits 1. -/
theorem upgrade_exit_zero_iff_all_succeed (exits : Nat → Nat) :
    ((runUpgrade exits).2 = 0 ↔ ∀ i, i < 5 → exits i = 0) ∧
    ((exits 0 = 0 ∧ exits 1 = 0 ∧ exits 2 = 0 ∧
        ¬(exits 3 = 0 ∧ exits 4 = 0)) →
      (runUpgrade exits).1 = [0, 1, 2, 3, 4] ∧ (runUpgrade exits).2 = 1) := by
  rw [runUpgrade_eq]
  refine ⟨⟨?_, ?_⟩, ?_⟩
  · intro h i hi
    by_cases e0 : exits 0 = 0
    · by_cases e1 : exits 1 = 0
      · by_cases e2 : exits 2 = 0
        · rw [if_pos e0, if_pos e1, if_pos e2] at h
          by_cases e3 : exits 3 = 0
          · by_cases e4 : exits 4 = 0
            · interval_cases i <;> assumption
            · rw [if_pos e3, if_neg e4] at h
              simp at h
          · rw [if_neg e3] at h
            simp at h
        · rw [if_pos e0, if_pos e1, if_neg e2] at h
          simp at h
      · rw [if_pos e0, if_neg e1] at h
        simp at h
    · rw [if_neg e0] at h
      simp at h
  · intro h
    rw [if_pos (h 0 (by omega)), if_pos (h 1 (by omega)),
        if_pos (h 2 (by omega)), if_pos (h 3 (by omega)),
        if_pos (h 4 (by omega))]
  · rintro ⟨h0, h1, h2, h34⟩
    rw [if_pos h0, if_pos h1, if_pos h2]
    refine ⟨rfl, ?_⟩
    by_cases e3 : exits 3 = 0
    · have e4 : ¬ exits 4 = 0 := fun e4 => h34 ⟨e3, e4⟩
      rw [if_pos e3, if_neg e4]
    · rw [if_neg e3]

/-- An exit-code assignment under which only the non-critical `Type Check`
step (index 4) fails. -/
def exitsTypeCheckFail : Nat → Nat :=
  fun i => if i = 4 then 3 else 0

/-- Witness for C10: when only the non-critical type-check step fails, all
five steps run and the script exits 1. -/
theorem upgrade_exit_zero_iff_all_succeed_witness :
    (runUpgrade exitsTypeCheckFail).1 = [0, 1, 2, 3, 4] ∧
    (runUpgrade exitsTypeCheckFail).2 = 1 :=
  (upgrade_exit_zero_iff_all_succeed exitsTypeCheckFail).2 (by decide)

end Upgrade
